import Mathlib

/-!
Verification of the Alfis block-acceptance core (src/blockchain/chain.rs,
src/commons/mod.rs) against its natural-language specification.

The chain store, validator, locker committee selector and admission helpers
are embedded shallowly below.  SQL tables become lists of rows, the SQLite
connection becomes a `DbSpec` describing which writes the backing store
accepts, Rust `u64` arithmetic is `Nat` with explicit wrapping where the
source can wrap, and the unbounded committee-selection loop gets an explicit
fuel argument (`none` = the loop has not finished within the given fuel).
Rust panics (`expect`) are a distinguished result.

Code of the repository that sits outside the provided sources
(`commons/constants.rs`, `blockchain/hash_utils.rs`, `keys.rs`, the `Bytes`
and `Block` helper methods) is modelled from the spec, as marked on each
definition.
-/

namespace Alfis

/-- Byte strings (`Bytes` in the source): a list of byte values. -/
abbrev Bytes := List Nat

/-- 2^64, the modulus of Rust `u64` arithmetic. -/
def U64 : Nat := 2 ^ 64

/-- `u32::max_value()`. -/
def U32MAX : Nat := 2 ^ 32 - 1

/-- Wrapping `u64` value. -/
def u64wrap (n : Nat) : Nat := n % U64

/-- Wrapping `u64` subtraction `a - b`. -/
def u64sub (a b : Nat) : Nat := (U64 + a % U64 - b % U64) % U64

/-- Modelled from the spec: `leading_zero_bits(bytes)` of §4.1 ("counts
contiguous high-order zero bits"); `hash_utils.rs` is not under src/.
This is `hash_difficulty` applied to a hash. -/
def hash_difficulty : Bytes → Nat
  | [] => 0
  | x :: r => if x % 256 = 0 then 8 + hash_difficulty r else 7 - Nat.log2 (x % 256)

/-- Modelled from the spec: `Bytes::is_zero`, true when the byte string
carries no information (origin unset, §4.3 step 8); `Bytes` methods are not
under src/. -/
def bytesIsZero (bs : Bytes) : Bool := bs.all (fun x => x == 0)

/-- Modelled from the spec: `Bytes::get_tail_u64`, "last 64 bits of f.hash,
interpreted as unsigned" (§4.4); `Bytes` methods are not under src/. -/
def get_tail_u64 (bs : Bytes) : Nat :=
  ((bs.drop (bs.length - 8)).foldl (fun a x => a * 256 + x % 256) 0) % U64

/-- Modelled from the spec: zone payload `{name, difficulty, …}` (§3);
`blockchain/transaction.rs` is not under src/. -/
structure ZoneData where
  name : String
  difficulty : Nat
deriving DecidableEq

/-- Modelled from the spec: domain payload `{zone, records…}` (§3), of which
the chain only extracts `zone`; `blockchain/transaction.rs` is not under
src/. -/
structure DomainData where
  zone : String
deriving DecidableEq

/-- Modelled from the spec: the opaque canonical text in a transaction's
`data` field together with what serde parsing of it yields (§3, §6). -/
inductive TxData where
  | dom : DomainData → TxData
  | zon : ZoneData → TxData
  | raw : String → TxData
deriving DecidableEq

/-- Modelled from the spec: `serde_json::from_str::<DomainData>` succeeds
exactly on canonical domain payloads. -/
def parseDomainData : TxData → Option DomainData
  | .dom d => some d
  | _ => none

/-- Modelled from the spec: `serde_json::from_str::<ZoneData>` succeeds
exactly on canonical zone payloads. -/
def parseZoneData : TxData → Option ZoneData
  | .zon z => some z
  | _ => none

/-- A transaction (§3).  The source field `class` is a Lean keyword and is
rendered `tclass`. -/
structure Transaction where
  identity : Bytes
  confirmation : Bytes
  tclass : String
  data : TxData
  pub_key : Bytes
deriving DecidableEq

/-- A block (§3). -/
structure Block where
  index : Nat
  timestamp : Int
  version : Nat
  difficulty : Nat
  random : Nat
  nonce : Nat
  prev_block_hash : Bytes
  hash : Bytes
  pub_key : Bytes
  signature : Bytes
  transaction : Option Transaction
deriving DecidableEq

/-- Modelled from the spec: `Block::is_genesis` — the genesis block is the
block at index 1 and the only block with an empty `prev_block_hash`
(§3 invariant 2, glossary); `blockchain/block.rs` is not under src/. -/
def Block.is_genesis (b : Block) : Bool :=
  b.index == 1 && b.prev_block_hash.isEmpty

/-- A row of the `domains` or `zones` table (§6): `id` is the index of the
block that carried the transaction. -/
structure TxRow where
  id : Nat
  timestamp : Int
  identity : Bytes
  confirmation : Bytes
  data : TxData
  pub_key : Bytes
deriving DecidableEq

/-- Modelled from the spec: the constants of `commons/constants.rs`, which is
not under src/ (§4.4 names them and their constraints; no numeric values are
given). -/
structure Consts where
  LOCKER_BLOCK_START : Nat
  LOCKER_BLOCK_SIGNS : Nat
  LOCKER_BLOCK_LOCKERS : Nat
  LOCKER_BLOCK_INTERVAL : Nat
  NEW_DOMAINS_INTERVAL : Int
  KEYSTORE_DIFFICULTY : Nat
  ZONE_DIFFICULTY : Nat
  LOCKER_DIFFICULTY : Nat
deriving DecidableEq

/-- Modelled from the spec: the cryptographic primitives of
`blockchain/hash_utils.rs` and `keys.rs`, which are not under src/
(§4.1): hash recomputation check, signature check, and key-strength test. -/
structure Crypto where
  check_block_hash : Block → Bool
  check_block_signature : Block → Bool
  check_public_key_strength : Bytes → Nat → Bool

/-- The chain state: the cached fields of `struct Chain` plus the rows of the
`blocks`, `domains` and `zones` tables (keyed by their `id` primary key). -/
structure Chain where
  origin : Bytes
  last_block : Option Block
  last_full_block : Option Block
  blocks : List Block
  domains : List TxRow
  zones : List TxRow
deriving DecidableEq

/-- `SELECT * FROM blocks WHERE id=? LIMIT 1` (`get_block`). -/
def Chain.get_block (c : Chain) (index : Nat) : Option Block :=
  c.blocks.find? (fun b => b.index == index)

/-- `height()`: index of the cached last block, 0 when empty. -/
def Chain.height (c : Chain) : Nat :=
  match c.last_block with
  | none => 0
  | some b => b.index

/-- The row with the greatest `id` — `ORDER BY id DESC LIMIT 1` over a
selection of block rows.  `id` is the primary key, so ties cannot occur in a
well-formed table; the fold keeps the earlier row on a tie. -/
def latestBlock? (l : List Block) : Option Block :=
  l.foldl (fun acc b =>
    match acc with
    | none => some b
    | some a => if a.index < b.index then some b else some a) none

/-- `ORDER BY id DESC LIMIT 1` over a selection of transaction rows. -/
def latestRow? (l : List TxRow) : Option TxRow :=
  l.foldl (fun acc r =>
    match acc with
    | none => some r
    | some a => if a.id < r.id then some r else some a) none

/-- The SQL fallback of `get_last_full_block`: last block row whose
`transaction` column is non-empty, optionally filtered by `pub_key`. -/
def Chain.last_full_query (c : Chain) (pk : Option Bytes) : Option Block :=
  latestBlock? (c.blocks.filter (fun b =>
    b.transaction.isSome &&
      (match pk with
       | none => true
       | some k => b.pub_key == k)))

/-- `get_last_full_block`: serve from the cached `last_full_block` when it
matches the requested key, otherwise query the table. -/
def Chain.get_last_full_block (c : Chain) (pk : Option Bytes) : Option Block :=
  match c.last_full_block, pk with
  | some fb, none => some fb
  | some fb, some k =>
      if fb.pub_key == k then some fb else c.last_full_query (some k)
  | none, _ => c.last_full_query pk

/-- `is_id_available`: the latest owner of the identity in the `domains`
(resp. `zones`) table is unset or equals `public_key`. -/
def Chain.is_id_available (c : Chain) (identity pk : Bytes) (zone : Bool) : Bool :=
  match latestRow? ((if zone then c.zones else c.domains).filter
      (fun r => r.identity == identity)) with
  | none => true
  | some r => r.pub_key == pk

/-- `is_id_in_blockchain`: some row of the `domains` (resp. `zones`) table
carries this identity. -/
def Chain.is_id_in_blockchain (c : Chain) (id : Bytes) (zone : Bool) : Bool :=
  (if zone then c.zones else c.domains).any (fun r => r.identity == id)

/-- Insert into the name-keyed map built by `get_zones` (later rows with the
same name overwrite earlier ones). -/
def upsertZone : List ZoneData → ZoneData → List ZoneData
  | [], z => [z]
  | a :: r, z => if a.name == z.name then z :: r else a :: upsertZone r z

/-- `get_zones`: parse every `zones` row and collapse by name.  The source
drains a `HashMap` in unspecified order; all consumers only search the
result by name, so a canonical order is used here. -/
def Chain.get_zones (c : Chain) : List ZoneData :=
  c.zones.foldl (fun m r =>
    match parseZoneData r.data with
    | none => m
    | some z => upsertZone m z) []

/-- `get_difficulty_for_transaction`. -/
def Chain.get_difficulty_for_transaction (P : Consts) (c : Chain) (t : Transaction) : Nat :=
  if t.tclass == "domain" then
    match parseDomainData t.data with
    | some d =>
        match c.get_zones.find? (fun z => z.name == d.zone) with
        | some z => z.difficulty
        | none => U32MAX
    | none => U32MAX
  else if t.tclass == "zone" then P.ZONE_DIFFICULTY
  else U32MAX

/-- The index probed by the committee-selection walk at counter `count`
(`start_index + ((tail * count) % LOCKER_BLOCK_INTERVAL)`, `u64`
arithmetic). -/
def probeIndex (P : Consts) (tail start count : Nat) : Nat :=
  u64wrap (start + u64wrap (tail * count) % P.LOCKER_BLOCK_INTERVAL)

/-- The selection loop of `get_block_signers` with explicit fuel.  One unit
of fuel is one iteration of the source's `while` loop; `none` means the loop
has not finished within the given fuel.  Note that the source increments
`count` only when the probed block exists. -/
def signersAux (P : Consts) (c : Chain) (fb : Block) (tail start : Nat) :
    Nat → List Bytes → Nat → Option (List Bytes)
  | _, _, 0 => none
  | count, acc, fuel + 1 =>
    if P.LOCKER_BLOCK_LOCKERS ≤ acc.length then some acc
    else
      match c.get_block (probeIndex P tail start count) with
      | none => signersAux P c fb tail start count acc fuel
      | some b =>
          if b.pub_key ≠ fb.pub_key ∧ b.pub_key ∉ acc then
            signersAux P c fb tail start (count + 1) (acc ++ [b.pub_key]) fuel
          else
            signersAux P c fb tail start (count + 1) acc fuel

/-- `get_block_signers`, fuelled. -/
def Chain.get_block_signersF (P : Consts) (c : Chain) (fb : Block) (fuel : Nat) :
    Option (List Bytes) :=
  if fb.index < P.LOCKER_BLOCK_START then some []
  else
    let tail := get_tail_u64 fb.hash
    let interval := u64sub (min fb.index P.LOCKER_BLOCK_INTERVAL) 1
    let start := u64sub fb.index interval
    signersAux P c fb tail start 1 [] fuel

/-- Result of running embedded stateful code: a value, a Rust panic
(`expect` failure), or fuel exhaustion of an unbounded loop. -/
inductive Res (α : Type) where
  | ok : α → Res α
  | panicked : Res α
  | timeout : Res α
deriving DecidableEq

/-- The verdicts of the validator (`BlockQuality`). -/
inductive BlockQuality where
  | Good
  | Bad
  | Fork
  | Twin
  | Future
deriving DecidableEq

/-- The `for i in (full_block.index + 1)..block.index` loop of
`check_block_for_signing`: `ok true` when some block in the range carries
`pk`; `panicked` reflects `self.get_block(i).expect("Error in DB!")`. -/
def dupScan (c : Chain) (pk : Bytes) : List Nat → Res Bool
  | [] => .ok false
  | i :: rest =>
    match c.get_block i with
    | none => .panicked
    | some s => if s.pub_key == pk then .ok true else dupScan c pk rest

/-- `check_block_for_signing`, fuelled. -/
def Chain.check_block_for_signingF (P : Consts) (c : Chain) (b fb : Block) (fuel : Nat) :
    Res BlockQuality :=
  match c.get_block_signersF P fb fuel with
  | none => .timeout
  | some signers =>
    if b.pub_key ∉ signers then .ok .Bad
    else
      match dupScan c b.pub_key (List.range' (fb.index + 1) (b.index - (fb.index + 1))) with
      | .panicked => .panicked
      | .timeout => .timeout
      | .ok true => .ok .Bad
      | .ok false => .ok .Good

/-- `check_new_block`, fuelled; `now` is `Utc::now().timestamp()`. -/
def Chain.check_new_blockF (P : Consts) (K : Crypto) (c : Chain) (b : Block)
    (now : Int) (fuel : Nat) : Res BlockQuality :=
  if b.timestamp > now + 60 then .ok .Bad
  else if !K.check_public_key_strength b.pub_key P.KEYSTORE_DIFFICULTY then .ok .Bad
  else
    let difficulty :=
      match b.transaction with
      | none => if b.index == 1 then P.ZONE_DIFFICULTY else P.LOCKER_DIFFICULTY
      | some t => c.get_difficulty_for_transaction P t
    if b.difficulty < difficulty then .ok .Bad
    else if hash_difficulty b.hash < b.difficulty then .ok .Bad
    else if !K.check_block_hash b then .ok .Bad
    else if !K.check_block_signature b then .ok .Bad
    else
      let spoof : Bool :=
        match b.transaction with
        | none => false
        | some t => !c.is_id_available t.identity b.pub_key false
      if spoof then .ok .Bad
      else
        let tooEarly : Bool :=
          match b.transaction with
          | none => false
          | some t =>
            match c.get_last_full_block (some b.pub_key) with
            | none => false
            | some last =>
                !c.is_id_in_blockchain t.identity false &&
                  last.timestamp + P.NEW_DOMAINS_INTERVAL > b.timestamp
        if tooEarly then .ok .Bad
        else
          match c.last_block with
          | none =>
              if !b.is_genesis then .ok .Future
              else if !bytesIsZero c.origin && b.hash ≠ c.origin then .ok .Bad
              else .ok .Good
          | some last_block =>
              if b.timestamp < last_block.timestamp ∧ last_block.index < b.index then
                .ok .Bad
              else if u64wrap (last_block.index + 1) < b.index then .ok .Future
              else
                let lockerRes : Res Bool :=
                  if P.LOCKER_BLOCK_START ≤ b.index then
                    match c.last_full_block with
                    | none => .ok false
                    | some full_block =>
                        let locker_blocks := u64sub c.height full_block.index
                        if locker_blocks < P.LOCKER_BLOCK_SIGNS then
                          if b.transaction.isSome then .ok true
                          else
                            match c.check_block_for_signingF P b full_block fuel with
                            | .ok q => .ok (q == .Bad)
                            | .panicked => .panicked
                            | .timeout => .timeout
                        else if locker_blocks < P.LOCKER_BLOCK_LOCKERS &&
                            b.transaction.isNone then
                          match c.check_block_for_signingF P b full_block fuel with
                          | .ok q => .ok (q == .Bad)
                          | .panicked => .panicked
                          | .timeout => .timeout
                        else .ok false
                  else .ok false
                match lockerRes with
                | .panicked => .panicked
                | .timeout => .timeout
                | .ok true => .ok .Bad
                | .ok false =>
                    if b.index ≤ last_block.index then
                      if b.index == last_block.index && last_block.hash == b.hash then
                        .ok .Twin
                      else
                        match c.get_block b.index with
                        | some my_block =>
                            if my_block.hash ≠ b.hash then .ok .Fork else .ok .Twin
                        | none => .ok .Good
                    else .ok .Good

/-- Which writes the backing store accepts (§7 StorageFailure model): one
flag per table.  A duplicate primary key also refuses the row. -/
structure DbSpec where
  blocks_ok : Bool
  domains_ok : Bool
  zones_ok : Bool
deriving DecidableEq

/-- `add_block_to_table(...).is_ok()`: the insert succeeds when the store
accepts it and the `id` primary key is not already present. -/
def blockInsertOk (db : DbSpec) (c : Chain) (b : Block) : Bool :=
  db.blocks_ok && !(c.blocks.any (fun r => r.index == b.index))

/-- The `domains`/`zones` row derived from a full block
(`add_transaction_to_table` binds the block's index and timestamp). -/
def rowFor (b : Block) (t : Transaction) : TxRow :=
  ⟨b.index, b.timestamp, t.identity, t.confirmation, t.data, t.pub_key⟩

/-- Outcome of `add_block`: a normal return with the new state, or a Rust
panic (`expect("Error adding transaction")`) with the state at the moment of
the panic. -/
inductive AddBlockResult where
  | ret : Chain → AddBlockResult
  | panicked : Chain → AddBlockResult
deriving DecidableEq

/-- `add_block`: update the cached last block (and last full block), then
try the `blocks` insert; on success insert the derived row, whose failure
panics via `expect`.  A failed `blocks` insert is silently skipped. -/
def Chain.add_block (db : DbSpec) (c : Chain) (b : Block) : AddBlockResult :=
  let c1 : Chain :=
    { c with
      last_block := some b,
      last_full_block := if b.transaction.isSome then some b else c.last_full_block }
  if blockInsertOk db c b then
    let c2 : Chain := { c1 with blocks := c1.blocks ++ [b] }
    match b.transaction with
    | none => .ret c2
    | some t =>
        if t.tclass == "domain" then
          if db.domains_ok && !(c2.domains.any (fun r => r.id == b.index)) then
            .ret { c2 with domains := c2.domains ++ [rowFor b t] }
          else .panicked c2
        else if t.tclass == "zone" then
          if db.zones_ok && !(c2.zones.any (fun r => r.id == b.index)) then
            .ret { c2 with zones := c2.zones ++ [rowFor b t] }
          else .panicked c2
        else .panicked c2
  else .ret c1

/-! ## Domain-name syntax (`check_domain`, commons/mod.rs) -/

/-- A punctuation character of the domain syntax: `.` or `-`. -/
def isPunct (c : Char) : Bool := c == '.' || c == '-'

/-- `name.starts_with('.') || name.starts_with('-')`. -/
def headPunct (name : List Char) : Bool :=
  match name.head? with
  | some c => isPunct c
  | none => false

/-- `name.ends_with('.') || name.ends_with('-')`. -/
def lastPunct (name : List Char) : Bool :=
  match name.getLast? with
  | some c => isPunct c
  | none => false

/-- The character loop of `check_domain` with its two flags `last_dot` and
`last_hyphen`. -/
def cdLoop (allow_dots : Bool) : Bool → Bool → List Char → Bool
  | _, _, [] => true
  | last_dot, last_hyphen, ch :: rest =>
    if allow_dots && ch == '.' then
      if last_dot then false else cdLoop allow_dots true last_hyphen rest
    else if ch == '-' then
      if last_hyphen then false else cdLoop allow_dots last_dot true rest
    else if ch.isAlphanum then cdLoop allow_dots false false rest
    else false

/-- `check_domain` (commons/mod.rs): leading/trailing punctuation rejected
up front, then the flag loop. -/
def check_domain (name : List Char) (allow_dots : Bool) : Bool :=
  if headPunct name || lastPunct name then false
  else cdLoop allow_dots false false name

/-- Whether the two-character substring `a b` occurs in the list. -/
def hasPair (a b : Char) : List Char → Bool
  | x :: y :: r => (x == a && y == b) || hasPair a b (y :: r)
  | _ => false

/-- Whether three consecutive punctuation characters occur in the list. -/
def hasTriplePunct : List Char → Bool
  | a :: b :: c :: r =>
      (isPunct a && isPunct b && isPunct c) || hasTriplePunct (b :: c :: r)
  | _ => false

/-- Characters the claim allows: lowercase ASCII alphanumeric plus `-`
(and `.` when dots are allowed).  This follows the claim's words, for
comparison with the source's `check_domain`. -/
def claimedAllowed (allow_dots : Bool) (c : Char) : Bool :=
  c.isLower || c.isDigit || c == '-' || (allow_dots && c == '.')

/-- The claim's characterisation of `check_domain`, rendered executable from
its words: lowercase ASCII alphanumeric plus `-` (and `.` when allowed), no
leading or trailing `.`/`-`, and neither `..` nor `--`. -/
def check_domainSpecClaimed (name : List Char) (allow_dots : Bool) : Bool :=
  name.all (claimedAllowed allow_dots) && !headPunct name && !lastPunct name &&
    !hasPair '.' '.' name && !hasPair '-' '-' name

/-- Characters the source accepts: ASCII alphanumeric of either case plus
`-` (and `.` when dots are allowed). -/
def allowedChar (allow_dots : Bool) (c : Char) : Bool :=
  c.isAlphanum || c == '-' || (allow_dots && c == '.')

/-- No `..`, no `--`, and no three punctuation characters in a row. -/
def noBadRun (l : List Char) : Bool :=
  !hasPair '.' '.' l && !hasPair '-' '-' l && !hasTriplePunct l

/-- The amended characterisation: ASCII alphanumeric of either case plus `-`
(and `.` when allowed), no leading or trailing `.`/`-`, no `..`, no `--`,
and no three consecutive punctuation characters. -/
def check_domainSpecAmended (name : List Char) (allow_dots : Bool) : Bool :=
  name.all (allowedChar allow_dots) && !headPunct name && !lastPunct name &&
    noBadRun name

/-- The canonical pending punctuation run encoded by the two loop flags. -/
def flagPre : Bool → Bool → List Char
  | false, false => []
  | true, false => ['.']
  | false, true => ['-']
  | true, true => ['.', '-']

theorem not_punct_ne_dot {c : Char} (h : isPunct c = false) : (c == '.') = false := by
  simp only [isPunct, Bool.or_eq_false_iff] at h
  exact h.1

theorem not_punct_ne_dash {c : Char} (h : isPunct c = false) : (c == '-') = false := by
  simp only [isPunct, Bool.or_eq_false_iff] at h
  exact h.2

theorem hasPair_cons_of_ne (a b c : Char) (h : (c == a) = false) (l : List Char) :
    hasPair a b (c :: l) = hasPair a b l := by
  cases l with
  | nil => simp [hasPair]
  | cons y r => simp [hasPair, h]

theorem hasPair_cons₂ (a b x y : Char) (h : (y == b) = false) (l : List Char) :
    hasPair a b (x :: y :: l) = hasPair a b (y :: l) := by
  simp [hasPair, h]

theorem hasTriplePunct_cons_of_not_punct (c : Char) (h : isPunct c = false)
    (l : List Char) : hasTriplePunct (c :: l) = hasTriplePunct l := by
  cases l with
  | nil => simp [hasTriplePunct]
  | cons y r =>
    cases r with
    | nil => simp [hasTriplePunct]
    | cons z s => simp [hasTriplePunct, h]

theorem hasTriplePunct_cons₂ (a c : Char) (h : isPunct c = false) (l : List Char) :
    hasTriplePunct (a :: c :: l) = hasTriplePunct (c :: l) := by
  cases l with
  | nil => simp [hasTriplePunct]
  | cons z s => simp [hasTriplePunct, h]

theorem hasTriplePunct_cons₃ (a b c : Char) (h : isPunct c = false) (l : List Char) :
    hasTriplePunct (a :: b :: c :: l) = hasTriplePunct (c :: l) := by
  rw [show hasTriplePunct (a :: b :: c :: l)
      = ((isPunct a && isPunct b && isPunct c) || hasTriplePunct (b :: c :: l)) from rfl,
    h, hasTriplePunct_cons₂ b c h l]
  simp

theorem noBadRun_cons_of_not_punct (c : Char) (h : isPunct c = false)
    (l : List Char) : noBadRun (c :: l) = noBadRun l := by
  simp [noBadRun, hasPair_cons_of_ne _ _ _ (not_punct_ne_dot h),
    hasPair_cons_of_ne _ _ _ (not_punct_ne_dash h), hasTriplePunct_cons_of_not_punct _ h]

theorem noBadRun_cons_cons (x c : Char) (h : isPunct c = false) (l : List Char) :
    noBadRun (x :: c :: l) = noBadRun (c :: l) := by
  unfold noBadRun
  rw [hasPair_cons₂ '.' '.' x c (not_punct_ne_dot h),
    hasPair_cons₂ '-' '-' x c (not_punct_ne_dash h),
    hasTriplePunct_cons₂ x c h]

theorem noBadRun_pre_cons {ld lh : Bool} {c : Char} (h : isPunct c = false)
    (l : List Char) : noBadRun (flagPre ld lh ++ c :: l) = noBadRun (c :: l) := by
  cases ld <;> cases lh
  · rfl
  · show noBadRun ('-' :: c :: l) = noBadRun (c :: l)
    exact noBadRun_cons_cons _ _ h _
  · show noBadRun ('.' :: c :: l) = noBadRun (c :: l)
    exact noBadRun_cons_cons _ _ h _
  · show noBadRun ('.' :: '-' :: c :: l) = noBadRun (c :: l)
    unfold noBadRun
    rw [show hasPair '.' '.' ('.' :: '-' :: c :: l) = hasPair '.' '.' (c :: l) by
          rw [hasPair_cons₂ '.' '.' '.' '-' (by decide),
            hasPair_cons_of_ne '.' '.' '-' (by decide)],
        show hasPair '-' '-' ('.' :: '-' :: c :: l) = hasPair '-' '-' (c :: l) by
          rw [hasPair_cons_of_ne '-' '-' '.' (by decide),
            hasPair_cons₂ '-' '-' '-' c (not_punct_ne_dash h)],
        hasTriplePunct_cons₃ '.' '-' c h l]

theorem noBadRun_swap (l : List Char) :
    noBadRun ('-' :: '.' :: l) = noBadRun ('.' :: '-' :: l) := by
  cases l with
  | nil => decide
  | cons c r =>
    by_cases hc : isPunct c = true
    · have h1 : hasTriplePunct ('-' :: '.' :: c :: r) = true := by
        rw [show hasTriplePunct ('-' :: '.' :: c :: r)
            = ((isPunct '-' && isPunct '.' && isPunct c) || hasTriplePunct ('.' :: c :: r))
            from rfl, hc, show (isPunct '-' && isPunct '.' && true) = true from by decide]
        rfl
      have h2 : hasTriplePunct ('.' :: '-' :: c :: r) = true := by
        rw [show hasTriplePunct ('.' :: '-' :: c :: r)
            = ((isPunct '.' && isPunct '-' && isPunct c) || hasTriplePunct ('-' :: c :: r))
            from rfl, hc, show (isPunct '.' && isPunct '-' && true) = true from by decide]
        rfl
      simp [noBadRun, h1, h2]
    · have hc' : isPunct c = false := by revert hc; cases isPunct c <;> simp
      unfold noBadRun
      rw [show hasPair '.' '.' ('-' :: '.' :: c :: r) = hasPair '.' '.' (c :: r) by
            rw [hasPair_cons_of_ne '.' '.' '-' (by decide),
              hasPair_cons₂ '.' '.' '.' c (not_punct_ne_dot hc')],
          show hasPair '.' '.' ('.' :: '-' :: c :: r) = hasPair '.' '.' (c :: r) by
            rw [hasPair_cons₂ '.' '.' '.' '-' (by decide),
              hasPair_cons_of_ne '.' '.' '-' (by decide)],
          show hasPair '-' '-' ('-' :: '.' :: c :: r) = hasPair '-' '-' (c :: r) by
            rw [hasPair_cons₂ '-' '-' '-' '.' (by decide),
              hasPair_cons_of_ne '-' '-' '.' (by decide)],
          show hasPair '-' '-' ('.' :: '-' :: c :: r) = hasPair '-' '-' (c :: r) by
            rw [hasPair_cons_of_ne '-' '-' '.' (by decide),
              hasPair_cons₂ '-' '-' '-' c (not_punct_ne_dash hc')],
          hasTriplePunct_cons₃ '-' '.' c hc' r,
          hasTriplePunct_cons₃ '.' '-' c hc' r]

theorem nbr_dotdot (l : List Char) : noBadRun ('.' :: '.' :: l) = false := by
  simp [noBadRun, hasPair]

theorem nbr_dashdash (l : List Char) : noBadRun ('-' :: '-' :: l) = false := by
  simp [noBadRun, hasPair]

theorem nbr_dot_dash_dot (l : List Char) : noBadRun ('.' :: '-' :: '.' :: l) = false := by
  have h : hasTriplePunct ('.' :: '-' :: '.' :: l) = true := by
    rw [show hasTriplePunct ('.' :: '-' :: '.' :: l)
        = ((isPunct '.' && isPunct '-' && isPunct '.') || hasTriplePunct ('-' :: '.' :: l))
        from rfl, show (isPunct '.' && isPunct '-' && isPunct '.') = true from by decide]
    rfl
  simp [noBadRun, h]

theorem nbr_dot_dash_dash (l : List Char) : noBadRun ('.' :: '-' :: '-' :: l) = false := by
  have h : hasPair '-' '-' ('.' :: '-' :: '-' :: l) = true := by
    rw [hasPair_cons_of_ne '-' '-' '.' (by decide)]
    simp [hasPair]
  simp [noBadRun, h]

theorem alnum_not_punct {c : Char} (h : c.isAlphanum = true) : isPunct c = false := by
  by_cases h1 : c = '.'
  · subst h1; simp at h
  · by_cases h2 : c = '-'
    · subst h2; simp at h
    · simp [isPunct, beq_eq_false_iff_ne, h1, h2]

/-- The flag loop of `check_domain` accepts exactly the strings whose
characters are allowed and which, prefixed with the pending punctuation run
encoded by the flags, contain no `..`, no `--` and no three consecutive
punctuation characters. -/
theorem cdLoop_characterisation (allow : Bool) : ∀ (cs : List Char) (ld lh : Bool),
    cdLoop allow ld lh cs
      = (cs.all (allowedChar allow) && noBadRun (flagPre ld lh ++ cs)) := by
  intro cs
  induction cs with
  | nil =>
    intro ld lh
    cases ld <;> cases lh <;> rfl
  | cons ch rest ih =>
    intro ld lh
    by_cases hdot : (allow && ch == '.') = true
    · have hch : ch = '.' := eq_of_beq ((Bool.and_eq_true _ _).mp hdot).2
      have hallow : allow = true := ((Bool.and_eq_true _ _).mp hdot).1
      subst hch
      subst hallow
      cases ld
      · -- first dot after an alphanumeric (or at the start): set the flag
        show cdLoop true true lh rest = _
        rw [ih true lh]
        cases lh
        · rfl
        · show _ = (List.all ('.' :: rest) (allowedChar true)
              && noBadRun ('-' :: '.' :: rest))
          rw [noBadRun_swap rest]
          show _ = (allowedChar true '.' && List.all rest (allowedChar true)
              && noBadRun ('.' :: '-' :: rest))
          rw [show allowedChar true '.' = true from by decide]
          simp [flagPre]
      · -- a second dot inside one punctuation run: reject
        show false = _
        cases lh
        · show false = (_ && noBadRun ('.' :: '.' :: rest))
          rw [nbr_dotdot]
          simp
        · show false = (_ && noBadRun ('.' :: '-' :: '.' :: rest))
          rw [nbr_dot_dash_dot]
          simp
    · have hdot' : (allow && ch == '.') = false := by
        revert hdot; cases allow && ch == '.' <;> simp
      by_cases hdash : (ch == '-') = true
      · have hch : ch = '-' := eq_of_beq hdash
        subst hch
        have hunfold : ∀ ld₀ lh₀ : Bool, cdLoop allow ld₀ lh₀ ('-' :: rest)
            = (if lh₀ then false else cdLoop allow ld₀ true rest) := by
          intro ld₀ lh₀
          rw [show cdLoop allow ld₀ lh₀ ('-' :: rest)
              = (if allow && '-' == '.' then
                   if ld₀ then false else cdLoop allow true lh₀ rest
                 else if '-' == '-' then
                   if lh₀ then false else cdLoop allow ld₀ true rest
                 else if Char.isAlphanum '-' then cdLoop allow false false rest
                 else false) from rfl,
            show ('-' == '.') = false from by decide, Bool.and_false]
          rfl
        cases lh
        · -- first hyphen in the run: set the flag
          rw [hunfold ld false, if_neg (by simp), ih ld true]
          have hall : allowedChar allow '-' = true := by
            simp [allowedChar]
          cases ld
          · show _ = (allowedChar allow '-' && List.all rest (allowedChar allow)
                && noBadRun ('-' :: rest))
            rw [hall]
            simp [flagPre]
          · show _ = (allowedChar allow '-' && List.all rest (allowedChar allow)
                && noBadRun ('.' :: '-' :: rest))
            rw [hall]
            simp [flagPre]
        · -- a second hyphen inside one punctuation run: reject
          rw [hunfold ld true, if_pos rfl]
          cases ld
          · show false = (_ && noBadRun ('-' :: '-' :: rest))
            rw [nbr_dashdash]
            simp
          · show false = (_ && noBadRun ('.' :: '-' :: '-' :: rest))
            rw [nbr_dot_dash_dash]
            simp
      · have hdash' : (ch == '-') = false := by
          revert hdash; cases ch == '-' <;> simp
        by_cases halnum : ch.isAlphanum = true
        · -- alphanumeric: clear both flags
          have hnp : isPunct ch = false := alnum_not_punct halnum
          show cdLoop allow ld lh (ch :: rest)
              = (List.all (ch :: rest) (allowedChar allow)
                  && noBadRun (flagPre ld lh ++ ch :: rest))
          rw [show cdLoop allow ld lh (ch :: rest)
              = (if allow && ch == '.' then
                   if ld then false else cdLoop allow true lh rest
                 else if ch == '-' then
                   if lh then false else cdLoop allow ld true rest
                 else if ch.isAlphanum then cdLoop allow false false rest
                 else false) from rfl, hdot', hdash', halnum]
          simp only [Bool.false_eq_true, if_false, if_true]
          rw [ih false false, noBadRun_pre_cons hnp,
            noBadRun_cons_of_not_punct ch hnp]
          have hall : allowedChar allow ch = true := by
            simp [allowedChar, halnum]
          show _ = (allowedChar allow ch && List.all rest (allowedChar allow)
              && noBadRun rest)
          rw [hall]
          simp [flagPre]
        · -- disallowed character: reject
          have halnum' : ch.isAlphanum = false := by
            revert halnum; cases ch.isAlphanum <;> simp
          show cdLoop allow ld lh (ch :: rest) = _
          rw [show cdLoop allow ld lh (ch :: rest)
              = (if allow && ch == '.' then
                   if ld then false else cdLoop allow true lh rest
                 else if ch == '-' then
                   if lh then false else cdLoop allow ld true rest
                 else if ch.isAlphanum then cdLoop allow false false rest
                 else false) from rfl, hdot', hdash', halnum']
          have hall : allowedChar allow ch = false := by
            simp [allowedChar, halnum', hdash', hdot']
          show false = (List.all (ch :: rest) (allowedChar allow) && _)
          rw [show List.all (ch :: rest) (allowedChar allow)
              = (allowedChar allow ch && List.all rest (allowedChar allow)) from rfl,
            hall]
          simp

theorem check_domain_eq_amended (name : List Char) (allow_dots : Bool) :
    check_domain name allow_dots = check_domainSpecAmended name allow_dots := by
  unfold check_domain check_domainSpecAmended
  by_cases h : (headPunct name || lastPunct name) = true
  · rw [if_pos h]
    rcases (Bool.or_eq_true _ _).mp h with hp | hp <;> simp [hp]
  · have h2 : headPunct name = false ∧ lastPunct name = false := by
      revert h
      cases hh : headPunct name <;> cases hl : lastPunct name <;> simp
    rw [if_neg h, cdLoop_characterisation allow_dots name false false, h2.1, h2.2]
    show (_ && noBadRun (List.nil ++ name)) = _
    rw [List.nil_append]
    simp

/-- C8 counterexample: `check_domain` as implemented disagrees with the
claim's characterisation in both directions — it accepts the uppercase name
"A" (the claim allows only lowercase), and it rejects "a.-.b" (two dots
separated only by a hyphen) although that name contains neither ".." nor
"--". -/
theorem C8_counterexample :
    check_domain ['A'] false = true ∧ check_domainSpecClaimed ['A'] false = false ∧
      check_domain ['a', '.', '-', '.', 'b'] true = false ∧
      check_domainSpecClaimed ['a', '.', '-', '.', 'b'] true = true := by
  decide

/-- C8 (amended): `check_domain(name, allow_dots)` returns true if and only
if `name` consists of ASCII alphanumeric characters of either case plus `-`
(and `.` when `allow_dots` is true), with no leading or trailing `.` or `-`,
containing neither ".." nor "--" nor three consecutive punctuation
characters. -/
theorem C8_check_domain_amended (name : List Char) (allow_dots : Bool) :
    check_domain name allow_dots = check_domainSpecAmended name allow_dots :=
  check_domain_eq_amended name allow_dots

/-! ## Error handling of `add_block` (C3, C4) -/

/-- Whether `add_block` returned normally (did not panic). -/
def AddBlockResult.isRet : AddBlockResult → Bool
  | .ret _ => true
  | .panicked _ => false

/-- The chain state at the moment `add_block` returned or panicked. -/
def AddBlockResult.state : AddBlockResult → Chain
  | .ret c => c
  | .panicked c => c

/-- A chain with no blocks and empty tables. -/
def emptyChain : Chain := ⟨[], none, none, [], [], []⟩

/-- Concrete crypto oracle for witnesses: every hash, signature and
key-strength check passes. -/
def allowAll : Crypto := ⟨fun _ => true, fun _ => true, fun _ _ => true⟩

/-- Concrete constants for witnesses, respecting the spec's constraints
(`LOCKER_BLOCK_LOCKERS ≥ LOCKER_BLOCK_SIGNS`, §4.4). -/
def testConsts : Consts := ⟨6, 3, 4, 5, 100, 3, 2, 1⟩

/-- A block with only the fields a witness needs filled in. -/
def mkBlock (index : Nat) (ts : Int) (diff : Nat) (prev hash pk : Bytes)
    (tx : Option Transaction) : Block :=
  ⟨index, ts, 0, diff, 0, 0, prev, hash, pk, [], tx⟩

/-- If the `blocks` insert is refused, `add_block` returns normally with the
tables untouched, but the in-memory caches already point at the new
block. -/
theorem add_block_of_insert_fail (db : DbSpec) (c : Chain) (b : Block)
    (h : blockInsertOk db c b = false) :
    Chain.add_block db c b
      = .ret { c with
          last_block := some b,
          last_full_block := if b.transaction.isSome then some b else c.last_full_block } := by
  unfold Chain.add_block
  rw [h]
  rfl

/-- C3 counterexample: with a store that refuses the `blocks` insert,
`add_block` returns normally (no abort) and afterwards the in-memory
`last_block` — hence `height()` — points at a block that is in no table
row. -/
theorem C3_counterexample :
    (Chain.add_block ⟨false, true, true⟩ emptyChain
        (mkBlock 1 0 2 [] [0] [1] none)).isRet = true ∧
      (Chain.add_block ⟨false, true, true⟩ emptyChain
        (mkBlock 1 0 2 [] [0] [1] none)).state.last_block
        = some (mkBlock 1 0 2 [] [0] [1] none) ∧
      (Chain.add_block ⟨false, true, true⟩ emptyChain
        (mkBlock 1 0 2 [] [0] [1] none)).state.blocks = [] ∧
      (Chain.add_block ⟨false, true, true⟩ emptyChain
        (mkBlock 1 0 2 [] [0] [1] none)).state.height = 1 := by
  decide

/-- C3 (amended): a refused `blocks`-row write is not fatal — `add_block`
silently skips the derived-row insert and returns normally, leaving the
in-memory `last_block`/`last_full_block` (and hence `height()`) pointing at
the unpersisted block while no table row was written. -/
theorem C3_add_block_insert_fail_not_fatal (db : DbSpec) (c : Chain) (b : Block)
    (h : blockInsertOk db c b = false) :
    Chain.add_block db c b
      = .ret { c with
          last_block := some b,
          last_full_block := if b.transaction.isSome then some b else c.last_full_block } :=
  add_block_of_insert_fail db c b h

/-- Witness for C3 at a concrete refused write. -/
theorem C3_witness :
    blockInsertOk ⟨false, true, true⟩ emptyChain (mkBlock 1 0 2 [] [0] [1] none) = false ∧
      Chain.add_block ⟨false, true, true⟩ emptyChain (mkBlock 1 0 2 [] [0] [1] none)
        = .ret { emptyChain with
            last_block := some (mkBlock 1 0 2 [] [0] [1] none),
            last_full_block :=
              if (mkBlock 1 0 2 [] [0] [1] none).transaction.isSome
              then some (mkBlock 1 0 2 [] [0] [1] none) else emptyChain.last_full_block } :=
  ⟨by decide,
    C3_add_block_insert_fail_not_fatal ⟨false, true, true⟩ emptyChain
      (mkBlock 1 0 2 [] [0] [1] none) (by decide)⟩

/-- After a successful `blocks` insert, a refusal of the derived
`domains`/`zones` insert panics via `expect("Error adding transaction")`,
with the `blocks` row already written. -/
theorem add_block_of_tx_fail (db : DbSpec) (c : Chain) (b : Block) (t : Transaction)
    (ht : b.transaction = some t)
    (hok : blockInsertOk db c b = true)
    (hcase : (t.tclass = "domain" ∧ db.domains_ok = false) ∨
      (t.tclass = "zone" ∧ db.zones_ok = false)) :
    Chain.add_block db c b
      = .panicked { c with
          last_block := some b,
          last_full_block := some b,
          blocks := c.blocks ++ [b] } := by
  unfold Chain.add_block
  rw [hok]
  simp only [ht, Option.isSome_some, if_true]
  rcases hcase with ⟨hcl, hdb⟩ | ⟨hcl, hdb⟩
  · rw [hcl]
    simp [hdb]
  · rw [hcl]
    simp [hdb]

/-- A domain transaction for witnesses. -/
def testDomTx : Transaction := ⟨[7], [8], "domain", .dom ⟨"alfis"⟩, [1]⟩

/-- C4 counterexample: with the `blocks` insert accepted and the `domains`
insert refused, `add_block` panics — it does not complete normally —
although the `blocks` row was written. -/
theorem C4_counterexample :
    (Chain.add_block ⟨true, false, true⟩ emptyChain
        (mkBlock 1 0 2 [] [0] [1] (some testDomTx))).isRet = false ∧
      (Chain.add_block ⟨true, false, true⟩ emptyChain
        (mkBlock 1 0 2 [] [0] [1] (some testDomTx))).state.blocks
        = [mkBlock 1 0 2 [] [0] [1] (some testDomTx)] := by
  decide

/-- C4 (amended): if the blocks row was written but the derived
`domains`/`zones` insert is refused, `add_block` panics (the process aborts
through `expect`); the blocks row remains written and the in-memory caches
point at the new block. -/
theorem C4_add_block_tx_fail_fatal (db : DbSpec) (c : Chain) (b : Block) (t : Transaction)
    (ht : b.transaction = some t)
    (hok : blockInsertOk db c b = true)
    (hcase : (t.tclass = "domain" ∧ db.domains_ok = false) ∨
      (t.tclass = "zone" ∧ db.zones_ok = false)) :
    Chain.add_block db c b
      = .panicked { c with
          last_block := some b,
          last_full_block := some b,
          blocks := c.blocks ++ [b] } :=
  add_block_of_tx_fail db c b t ht hok hcase

/-- Witness for C4 at a concrete refused derived-row write. -/
theorem C4_witness :
    (mkBlock 1 0 2 [] [0] [1] (some testDomTx)).transaction = some testDomTx ∧
      blockInsertOk ⟨true, false, true⟩ emptyChain
        (mkBlock 1 0 2 [] [0] [1] (some testDomTx)) = true ∧
      Chain.add_block ⟨true, false, true⟩ emptyChain
        (mkBlock 1 0 2 [] [0] [1] (some testDomTx))
        = .panicked { emptyChain with
            last_block := some (mkBlock 1 0 2 [] [0] [1] (some testDomTx)),
            last_full_block := some (mkBlock 1 0 2 [] [0] [1] (some testDomTx)),
            blocks := emptyChain.blocks ++ [mkBlock 1 0 2 [] [0] [1] (some testDomTx)] } :=
  ⟨rfl, by decide,
    C4_add_block_tx_fail_fatal ⟨true, false, true⟩ emptyChain
      (mkBlock 1 0 2 [] [0] [1] (some testDomTx)) testDomTx rfl (by decide)
      (Or.inl ⟨rfl, rfl⟩)⟩

/-! ## Termination of the committee selection (C1) -/

theorem signersAux_none_of_no_blocks (P : Consts) (c : Chain) (fb : Block)
    (tail start : Nat) (hnb : ∀ i, c.get_block i = none) :
    ∀ fuel count acc, acc.length < P.LOCKER_BLOCK_LOCKERS →
      signersAux P c fb tail start count acc fuel = none := by
  intro fuel
  induction fuel with
  | zero => intro count acc _; rfl
  | succ n ih =>
    intro count acc h
    unfold signersAux
    rw [if_neg (Nat.not_le.mpr h), hnb (probeIndex P tail start count)]
    exact ih count acc h

theorem signers_none_of_no_blocks (P : Consts) (c : Chain) (fb : Block)
    (hnb : ∀ i, c.get_block i = none) (hl : 0 < P.LOCKER_BLOCK_LOCKERS)
    (hst : P.LOCKER_BLOCK_START ≤ fb.index) :
    ∀ fuel, Chain.get_block_signersF P c fb fuel = none := by
  intro fuel
  unfold Chain.get_block_signersF
  rw [if_neg (Nat.not_lt.mpr hst)]
  exact signersAux_none_of_no_blocks P c fb _ _ hnb fuel 1 [] (by simpa using hl)

/-- The selection loop of `get_block_signers(fb)` never finishes, at any
fuel bound. -/
def signersNeverTerminate (P : Consts) (c : Chain) (fb : Block) : Prop :=
  ∀ fuel, Chain.get_block_signersF P c fb fuel = none

/-- A full block sitting exactly at `LOCKER_BLOCK_START` of `testConsts`. -/
def c1Block : Block := mkBlock 6 0 2 [] [0] [1] none

/-- C1 counterexample: on a chain whose `blocks` table is empty — a chain
state with no distinct eligible signers and a missing block at every probed
index — the committee-selection loop of `get_block_signers` runs forever:
no iteration bound makes it return a list. -/
theorem C1_counterexample : signersNeverTerminate testConsts emptyChain c1Block :=
  signers_none_of_no_blocks testConsts emptyChain c1Block (fun _ => rfl)
    (by decide) (by decide)

/-- C1 (amended): `get_block_signers(f)` with `f.index ≥ LOCKER_BLOCK_START`
is not total: whenever the chain holds no block at any index (so no probed
index can ever answer, and in particular fewer than `LOCKER_BLOCK_LOCKERS`
eligible signers exist), the selection loop does not terminate — it returns
no list within any fuel bound. -/
theorem C1_signers_nontermination (P : Consts) (c : Chain) (fb : Block)
    (hnb : ∀ i, c.get_block i = none) (hl : 0 < P.LOCKER_BLOCK_LOCKERS)
    (hst : P.LOCKER_BLOCK_START ≤ fb.index) (fuel : Nat) :
    Chain.get_block_signersF P c fb fuel = none :=
  signers_none_of_no_blocks P c fb hnb hl hst fuel

/-- Witness for C1 at a concrete chain and fuel. -/
theorem C1_witness :
    (∀ i, emptyChain.get_block i = none) ∧ 0 < testConsts.LOCKER_BLOCK_LOCKERS ∧
      testConsts.LOCKER_BLOCK_START ≤ c1Block.index ∧
      Chain.get_block_signersF testConsts emptyChain c1Block 1000 = none :=
  ⟨fun _ => rfl, by decide, by decide,
    C1_signers_nontermination testConsts emptyChain c1Block (fun _ => rfl)
      (by decide) (by decide) 1000⟩

/-! ## Identity protection for zone transactions (C2) -/

/-- The zone transaction holding identity `[9]` under key `[2]`. -/
def zoneTxA : Transaction := ⟨[9], [8], "zone", .zon ⟨"alfis", 2⟩, [2]⟩

/-- The genesis zone block mined by key `[2]`. -/
def zoneBlockA : Block := mkBlock 1 0 2 [] [3] [2] (some zoneTxA)

/-- A chain whose `zones` table records identity `[9]` under key `[2]`. -/
def cZoneSpoof : Chain :=
  ⟨[], some zoneBlockA, some zoneBlockA, [zoneBlockA],
   [], [⟨1, 0, [9], [8], .zon ⟨"alfis", 2⟩, [2]⟩]⟩

/-- A zone transaction claiming the same identity `[9]` under key `[1]`. -/
def spoofTx : Transaction := ⟨[9], [8], "zone", .zon ⟨"other", 2⟩, [1]⟩

/-- The candidate block carrying `spoofTx`, mined by key `[1]`. -/
def spoofBlock : Block := mkBlock 2 0 2 [3] [0] [1] (some spoofTx)

/-- C2: the identity of `spoofTx` is already recorded in the chain as a
zone under key `[2]` (it is not available to key `[1]`), yet
`check_new_block` classifies the candidate as Good — the validator consults
only the `domains` table (`is_id_available(..., false)`, marked
`// TODO check for zone transaction` in the source), so zone identities are
not protected. -/
theorem C2_zone_spoof_accepted :
    spoofBlock.transaction = some spoofTx ∧ spoofTx.tclass = "zone" ∧
      cZoneSpoof.is_id_in_blockchain spoofTx.identity true = true ∧
      cZoneSpoof.is_id_available spoofTx.identity spoofBlock.pub_key true = false ∧
      Chain.check_new_blockF testConsts allowAll cZoneSpoof spoofBlock 0 1
        = .ok .Good := by
  decide

/-! ## Committee of a pre-locker full block (C10) -/

theorem signers_empty_of_small (P : Consts) (c : Chain) (fb : Block)
    (h : fb.index < P.LOCKER_BLOCK_START) (fuel : Nat) :
    Chain.get_block_signersF P c fb fuel = some [] := by
  unfold Chain.get_block_signersF
  rw [if_pos h]

theorem check_signing_bad_of_small_index (P : Consts) (c : Chain) (b fb : Block)
    (h : fb.index < P.LOCKER_BLOCK_START) (fuel : Nat) :
    Chain.check_block_for_signingF P c b fb fuel = .ok .Bad := by
  unfold Chain.check_block_for_signingF
  rw [signers_empty_of_small P c fb h fuel]
  simp

theorem checkF_bad_of_small_full (P : Consts) (K : Crypto) (c : Chain) (b lb fb : Block)
    (now : Int) (fuel : Nat)
    (hlast : c.last_block = some lb)
    (hfull : c.last_full_block = some fb)
    (hsmall : fb.index < P.LOCKER_BLOCK_START)
    (hlocker : b.transaction = none)
    (hstart : P.LOCKER_BLOCK_START ≤ b.index)
    (hnofut : ¬ u64wrap (lb.index + 1) < b.index)
    (hrange : u64sub c.height fb.index < P.LOCKER_BLOCK_SIGNS ∨
      u64sub c.height fb.index < P.LOCKER_BLOCK_LOCKERS) :
    Chain.check_new_blockF P K c b now fuel = .ok .Bad := by
  have hsig : ∀ f₂, Chain.check_block_for_signingF P c b fb f₂ = .ok .Bad :=
    fun f₂ => check_signing_bad_of_small_index P c b fb hsmall f₂
  unfold Chain.check_new_blockF
  by_cases hsigns : u64sub c.height fb.index < P.LOCKER_BLOCK_SIGNS
  · simp [hlocker, hlast, hfull, hstart, hnofut, hsigns, hsig]
  · rcases hrange with hr | hr
    · exact absurd hr hsigns
    · simp [hlocker, hlast, hfull, hstart, hnofut, hsigns, hr, hsig]

/-- C10: a full block `fb` with `fb.index < LOCKER_BLOCK_START` has an empty
committee — `get_block_signers` returns `[]` immediately, at any fuel — and
consequently every locker candidate that `check_new_block` checks against
such a last full block (the last-full gap still inside the signing window)
is classified Bad. -/
theorem C10_small_start_committee (P : Consts) (K : Crypto) (c : Chain)
    (b lb fb : Block) (now : Int) (fuel : Nat)
    (hlast : c.last_block = some lb)
    (hfull : c.last_full_block = some fb)
    (hsmall : fb.index < P.LOCKER_BLOCK_START)
    (hlocker : b.transaction = none)
    (hstart : P.LOCKER_BLOCK_START ≤ b.index)
    (hnofut : ¬ u64wrap (lb.index + 1) < b.index)
    (hrange : u64sub c.height fb.index < P.LOCKER_BLOCK_SIGNS ∨
      u64sub c.height fb.index < P.LOCKER_BLOCK_LOCKERS) :
    (∀ f₂, Chain.get_block_signersF P c fb f₂ = some []) ∧
      Chain.check_new_blockF P K c b now fuel = .ok .Bad :=
  ⟨fun f₂ => signers_empty_of_small P c fb hsmall f₂,
    checkF_bad_of_small_full P K c b lb fb now fuel hlast hfull hsmall hlocker
      hstart hnofut hrange⟩

/-- A full block at index 3, before `LOCKER_BLOCK_START` of `testConsts`. -/
def c10Full : Block := mkBlock 3 0 2 [11] [12] [2] (some ⟨[9], [8], "zone", .zon ⟨"alfis", 2⟩, [2]⟩)

/-- A five-block chain whose last full block is `c10Full`. -/
def c10Chain : Chain :=
  ⟨[], some (mkBlock 5 0 1 [13] [14] [2] none), some c10Full,
   [mkBlock 1 0 2 [] [10] [2] none, mkBlock 2 0 1 [10] [11] [2] none, c10Full,
    mkBlock 4 0 1 [12] [13] [2] none, mkBlock 5 0 1 [13] [14] [2] none],
   [], [⟨3, 0, [9], [8], .zon ⟨"alfis", 2⟩, [2]⟩]⟩

/-- Witness for C10: a locker candidate at index 6 over `c10Chain`. -/
theorem C10_witness :
    c10Chain.last_block = some (mkBlock 5 0 1 [13] [14] [2] none) ∧
      c10Chain.last_full_block = some c10Full ∧
      c10Full.index < testConsts.LOCKER_BLOCK_START ∧
      (mkBlock 6 0 1 [14] [0] [3] none).transaction = none ∧
      testConsts.LOCKER_BLOCK_START ≤ (mkBlock 6 0 1 [14] [0] [3] none).index ∧
      ¬ u64wrap ((mkBlock 5 0 1 [13] [14] [2] none).index + 1)
        < (mkBlock 6 0 1 [14] [0] [3] none).index ∧
      u64sub c10Chain.height c10Full.index < testConsts.LOCKER_BLOCK_SIGNS ∧
      Chain.get_block_signersF testConsts c10Chain c10Full 5 = some [] ∧
      Chain.check_new_blockF testConsts allowAll c10Chain
        (mkBlock 6 0 1 [14] [0] [3] none) 0 5 = .ok .Bad := by
  refine ⟨rfl, rfl, by decide, rfl, by decide, by decide, by decide, ?_, ?_⟩
  · exact (C10_small_start_committee testConsts allowAll c10Chain
      (mkBlock 6 0 1 [14] [0] [3] none) (mkBlock 5 0 1 [13] [14] [2] none) c10Full 0 5
      rfl rfl (by decide) rfl (by decide) (by decide) (Or.inl (by decide))).1 5
  · exact (C10_small_start_committee testConsts allowAll c10Chain
      (mkBlock 6 0 1 [14] [0] [3] none) (mkBlock 5 0 1 [13] [14] [2] none) c10Full 0 5
      rfl rfl (by decide) rfl (by decide) (by decide) (Or.inl (by decide))).2

/-! ## Totality of the per-index lookups in the locker check (C9) -/

theorem dupScan_ok (c : Chain) (pk : Bytes) (idxs : List Nat)
    (h : ∀ i ∈ idxs, (c.get_block i).isSome = true) :
    ∃ r, dupScan c pk idxs = .ok r := by
  induction idxs with
  | nil => exact ⟨false, rfl⟩
  | cons i rest ih =>
    have hi := h i (List.mem_cons_self i rest)
    rcases hb : c.get_block i with _ | s
    · rw [hb] at hi
      simp at hi
    · by_cases hs : (s.pub_key == pk) = true
      · exact ⟨true, by simp [dupScan, hb, hs]⟩
      · obtain ⟨r, hr⟩ := ih (fun j hj => h j (List.mem_cons_of_mem i hj))
        exact ⟨r, by simp [dupScan, hb, hs, hr]⟩

/-- C9: when the stored chain is contiguous (a block row at every index up
to `last_block.index`) and the candidate's index is at most
`last_block.index + 1`, the per-index lookups of `check_block_for_signing`
all succeed: the `expect("Error in DB!")` panic is unreachable, and whenever
the committee walk finishes the whole check returns a verdict. -/
theorem C9_signing_no_panic (P : Consts) (c : Chain) (b lb fb : Block) (fuel : Nat)
    (_hlast : c.last_block = some lb)
    (hcont : ∀ i, 1 ≤ i → i ≤ lb.index → (c.get_block i).isSome = true)
    (hbi : b.index ≤ lb.index + 1) :
    Chain.check_block_for_signingF P c b fb fuel ≠ .panicked ∧
      (∀ s, Chain.get_block_signersF P c fb fuel = some s →
        ∃ q, Chain.check_block_for_signingF P c b fb fuel = .ok q) := by
  have hidx : ∀ i ∈ List.range' (fb.index + 1) (b.index - (fb.index + 1)),
      (c.get_block i).isSome = true := by
    intro i hi
    rw [List.mem_range'_1] at hi
    have h1 : 1 ≤ i := by omega
    have h2 : i ≤ lb.index := by omega
    exact hcont i h1 h2
  obtain ⟨r, hr⟩ := dupScan_ok c b.pub_key _ hidx
  constructor
  · unfold Chain.check_block_for_signingF
    cases hsig : Chain.get_block_signersF P c fb fuel with
    | none => simp
    | some signers =>
      by_cases hmem : b.pub_key ∈ signers
      · cases r <;> simp [hmem, hr]
      · simp [hmem]
  · intro s hs
    unfold Chain.check_block_for_signingF
    rw [hs]
    by_cases hmem : b.pub_key ∈ s
    · cases r
      · exact ⟨.Good, by simp [hmem, hr]⟩
      · exact ⟨.Bad, by simp [hmem, hr]⟩
    · exact ⟨.Bad, by simp [hmem]⟩

/-- The full block at index 6 of the signing-window fixture chain. -/
def sFull : Block := mkBlock 6 0 2 [14] [1] [7] (some ⟨[9], [8], "zone", .zon ⟨"alfis", 2⟩, [7]⟩)

/-- The locker block at index 7 of the fixture chain. -/
def sTop : Block := mkBlock 7 0 1 [1] [15] [8] none

/-- A contiguous seven-block chain whose last full block `sFull` sits at
`LOCKER_BLOCK_START` of `testConsts` and has the four-member committee
`[[4], [5], [6], [3]]`. -/
def sChain : Chain :=
  ⟨[], some sTop, some sFull,
   [mkBlock 1 0 2 [] [10] [2] none, mkBlock 2 0 1 [10] [11] [3] none,
    mkBlock 3 0 1 [11] [12] [4] none, mkBlock 4 0 1 [12] [13] [5] none,
    mkBlock 5 0 1 [13] [14] [6] none, sFull, sTop],
   [], [⟨6, 0, [9], [8], .zon ⟨"alfis", 2⟩, [7]⟩]⟩

/-- A locker candidate at index 8 signed by committee member `[4]`. -/
def sCand : Block := mkBlock 8 0 1 [15] [0] [4] none

/-- Witness for C9 on the fixture chain, where the committee walk really
runs and succeeds. -/
theorem C9_witness :
    sChain.last_block = some sTop ∧
      (∀ i, 1 ≤ i → i ≤ sTop.index → (sChain.get_block i).isSome = true) ∧
      sCand.index ≤ sTop.index + 1 ∧
      Chain.get_block_signersF testConsts sChain sFull 12 = some [[4], [5], [6], [3]] ∧
      Chain.check_block_for_signingF testConsts sChain sCand sFull 12 ≠ .panicked := by
  refine ⟨rfl, ?_, by decide, by decide, ?_⟩
  · intro i h1 h2
    have h2' : i ≤ 7 := h2
    clear h2
    interval_cases i <;> decide
  · exact (C9_signing_no_panic testConsts sChain sCand sTop sFull 12 rfl
      (fun i h1 h2 => by
        have h2' : i ≤ 7 := h2
        clear h2
        interval_cases i <;> decide) (by decide)).1

/-! ## The locker gap rule (C5) -/

theorem check_signing_ok_cases (P : Consts) (c : Chain) (b fb : Block) (fuel : Nat)
    (q : BlockQuality) (h : Chain.check_block_for_signingF P c b fb fuel = .ok q) :
    q = .Good ∨ q = .Bad := by
  unfold Chain.check_block_for_signingF at h
  cases hsig : Chain.get_block_signersF P c fb fuel with
  | none => rw [hsig] at h; simp at h
  | some s =>
    rw [hsig] at h
    by_cases hmem : b.pub_key ∈ s
    · cases hd : dupScan c b.pub_key (List.range' (fb.index + 1) (b.index - (fb.index + 1))) with
      | panicked => simp [hmem, hd] at h
      | timeout => simp [hmem, hd] at h
      | ok r =>
        cases r
        · simp [hmem, hd] at h
          exact Or.inl h.symm
        · simp [hmem, hd] at h
          exact Or.inr h.symm
    · simp [hmem] at h
      exact Or.inr h.symm

/-- Elimination of one non-Good early exit of the validator. -/
theorem good_of_ite {A : Prop} [Decidable A] {X : Res BlockQuality} {r : BlockQuality}
    (hr : r ≠ .Good) (h : (if A then Res.ok r else X) = .ok .Good) : X = .ok .Good := by
  split at h
  · exact absurd (Res.ok.inj h) hr
  · exact h

/-- C5: with the last full block `fb` at or above `LOCKER_BLOCK_START` and
fewer than `LOCKER_BLOCK_SIGNS` blocks on top of it, a candidate at
`height()+1` carrying a transaction is always classified Bad, and a locker
candidate at that height is classified Good only if it passes the locker
check `check_block_for_signing`. -/
theorem C5_locker_gap (P : Consts) (K : Crypto) (c : Chain) (b lb fb : Block)
    (now : Int) (fuel : Nat)
    (hlast : c.last_block = some lb)
    (hfull : c.last_full_block = some fb)
    (hfs : P.LOCKER_BLOCK_START ≤ fb.index)
    (hgap : u64sub c.height fb.index < P.LOCKER_BLOCK_SIGNS)
    (hidx : b.index = lb.index + 1)
    (hfb_le : fb.index ≤ lb.index)
    (hbound : lb.index + 1 < U64) :
    (∀ t, b.transaction = some t →
        Chain.check_new_blockF P K c b now fuel = .ok .Bad) ∧
      (b.transaction = none →
        Chain.check_new_blockF P K c b now fuel = .ok .Good →
        Chain.check_block_for_signingF P c b fb fuel = .ok .Good) := by
  have hstart : P.LOCKER_BLOCK_START ≤ b.index := by omega
  have hwrap : u64wrap (lb.index + 1) = lb.index + 1 := Nat.mod_eq_of_lt hbound
  have hnofut : ¬ u64wrap (lb.index + 1) < b.index := by
    rw [hwrap]; omega
  constructor
  · intro t htx
    unfold Chain.check_new_blockF
    simp [htx, hlast, hfull, hstart, hnofut, hgap]
  · intro htx hgood
    have hBad : (BlockQuality.Bad : BlockQuality) ≠ .Good := by decide
    have hFut : (BlockQuality.Future : BlockQuality) ≠ .Good := by decide
    unfold Chain.check_new_blockF at hgood
    simp only [htx, hlast, hfull, Option.isSome_none, Option.isNone_none] at hgood
    replace hgood := good_of_ite hBad hgood
    replace hgood := good_of_ite hBad hgood
    replace hgood := good_of_ite hBad hgood
    replace hgood := good_of_ite hBad hgood
    replace hgood := good_of_ite hBad hgood
    replace hgood := good_of_ite hBad hgood
    replace hgood := good_of_ite hBad hgood
    replace hgood := good_of_ite hBad hgood
    replace hgood := good_of_ite hBad hgood
    replace hgood := good_of_ite hFut hgood
    rw [if_pos hstart, if_pos hgap] at hgood
    cases hchk : Chain.check_block_for_signingF P c b fb fuel with
    | panicked =>
      rw [hchk] at hgood
      simp at hgood
    | timeout =>
      rw [hchk] at hgood
      simp at hgood
    | ok q =>
      rcases check_signing_ok_cases P c b fb fuel q hchk with hq | hq
      · rw [hq]
      · rw [hchk, hq] at hgood
        simp at hgood

/-- A zone transaction for the C5 witness candidate. -/
def c5Tx : Transaction := ⟨[20], [8], "zone", .zon ⟨"beta", 2⟩, [3]⟩

/-- Witness for C5: over the fixture chain (gap of one locker above the full
block at `LOCKER_BLOCK_START`), a full candidate at `height()+1` is
classified Bad. -/
theorem C5_witness :
    sChain.last_block = some sTop ∧
      sChain.last_full_block = some sFull ∧
      testConsts.LOCKER_BLOCK_START ≤ sFull.index ∧
      u64sub sChain.height sFull.index < testConsts.LOCKER_BLOCK_SIGNS ∧
      (mkBlock 8 0 2 [15] [0] [3] (some c5Tx)).index = sTop.index + 1 ∧
      sFull.index ≤ sTop.index ∧ sTop.index + 1 < U64 ∧
      Chain.check_new_blockF testConsts allowAll sChain
        (mkBlock 8 0 2 [15] [0] [3] (some c5Tx)) 0 12 = .ok .Bad := by
  refine ⟨rfl, rfl, by decide, by decide, by decide, by decide, by decide, ?_⟩
  exact (C5_locker_gap testConsts allowAll sChain
    (mkBlock 8 0 2 [15] [0] [3] (some c5Tx)) sTop sFull 0 12 rfl rfl (by decide)
    (by decide) (by decide) (by decide) (by decide)).1 c5Tx rfl

/-! ## The new-identity cool-down (C6) -/

/-- C6: for a full candidate whose key has a prior full block `last` and
which passes every earlier check, with a positionally Good placement: if the
transaction's identity is new to the chain the verdict is Bad exactly when
`candidate.timestamp < last.timestamp + NEW_DOMAINS_INTERVAL` (Good from the
boundary on), and if the identity is already in the chain the cool-down is
not applied and the verdict is Good. -/
theorem C6_cooldown (P : Consts) (K : Crypto) (c : Chain) (b lb last : Block)
    (t : Transaction) (now : Int) (fuel : Nat)
    (htx : b.transaction = some t)
    (hlfb : c.get_last_full_block (some b.pub_key) = some last)
    (h1 : ¬ b.timestamp > now + 60)
    (h2 : K.check_public_key_strength b.pub_key P.KEYSTORE_DIFFICULTY = true)
    (h3 : ¬ b.difficulty < c.get_difficulty_for_transaction P t)
    (h4 : ¬ hash_difficulty b.hash < b.difficulty)
    (h5 : K.check_block_hash b = true)
    (h6 : K.check_block_signature b = true)
    (h7 : c.is_id_available t.identity b.pub_key false = true)
    (hlast : c.last_block = some lb)
    (hinv : ¬ b.timestamp < lb.timestamp)
    (hidx : b.index = lb.index + 1)
    (hbound : lb.index + 1 < U64)
    (hnolocker : b.index < P.LOCKER_BLOCK_START) :
    (c.is_id_in_blockchain t.identity false = false →
      (b.timestamp < last.timestamp + P.NEW_DOMAINS_INTERVAL →
        Chain.check_new_blockF P K c b now fuel = .ok .Bad) ∧
      (last.timestamp + P.NEW_DOMAINS_INTERVAL ≤ b.timestamp →
        Chain.check_new_blockF P K c b now fuel = .ok .Good)) ∧
    (c.is_id_in_blockchain t.identity false = true →
      Chain.check_new_blockF P K c b now fuel = .ok .Good) := by
  have hwrap : u64wrap (lb.index + 1) = lb.index + 1 := Nat.mod_eq_of_lt hbound
  have hnofut : ¬ u64wrap (lb.index + 1) < b.index := by rw [hwrap]; omega
  have hnoinv : ¬ (b.timestamp < lb.timestamp ∧ lb.index < b.index) := fun h => hinv h.1
  have hnostart : ¬ P.LOCKER_BLOCK_START ≤ b.index := Nat.not_le.mpr hnolocker
  have hnotwin : ¬ b.index ≤ lb.index := by omega
  refine ⟨fun hnew => ⟨fun hts => ?_, fun hts => ?_⟩, fun hold => ?_⟩
  · unfold Chain.check_new_blockF
    simp [htx, hlfb, h1, h2, h3, h4, h5, h6, h7, hnew, hts]
  · have hts' : ¬ b.timestamp < last.timestamp + P.NEW_DOMAINS_INTERVAL :=
      not_lt.mpr hts
    unfold Chain.check_new_blockF
    simp [htx, hlfb, h1, h2, h3, h4, h5, h6, h7, hnew, hts', hlast, hnoinv,
      hnofut, hnostart, hnotwin]
  · unfold Chain.check_new_blockF
    simp [htx, hlfb, h1, h2, h3, h4, h5, h6, h7, hold, hlast, hnoinv,
      hnofut, hnostart, hnotwin]

/-- The prior full block of the C6 witness key `[1]`. -/
def c6Prior : Block := mkBlock 1 0 2 [] [3] [1] (some ⟨[9], [8], "zone", .zon ⟨"alfis", 2⟩, [1]⟩)

/-- The one-block chain of the C6 witness. -/
def c6Chain : Chain :=
  ⟨[], some c6Prior, some c6Prior, [c6Prior], [], [⟨1, 0, [9], [8], .zon ⟨"alfis", 2⟩, [1]⟩]⟩

/-- A new-identity zone transaction by the same key `[1]`. -/
def c6Tx : Transaction := ⟨[21], [8], "zone", .zon ⟨"beta", 2⟩, [1]⟩

/-- Witness for C6: with `NEW_DOMAINS_INTERVAL = 100` the same key's
new-identity candidate is Bad at timestamp 99 and Good exactly from the
boundary timestamp 100 on. -/
theorem C6_witness :
    c6Chain.is_id_in_blockchain c6Tx.identity false = false ∧
      c6Chain.get_last_full_block (some [1]) = some c6Prior ∧
      Chain.check_new_blockF testConsts allowAll c6Chain
        (mkBlock 2 99 2 [3] [0] [1] (some c6Tx)) 100 1 = .ok .Bad ∧
      Chain.check_new_blockF testConsts allowAll c6Chain
        (mkBlock 2 100 2 [3] [0] [1] (some c6Tx)) 100 1 = .ok .Good := by
  refine ⟨by decide, by decide, ?_, ?_⟩
  · exact ((C6_cooldown testConsts allowAll c6Chain
      (mkBlock 2 99 2 [3] [0] [1] (some c6Tx)) c6Prior c6Prior c6Tx 100 1
      rfl (by decide) (by decide) (by decide) (by decide) (by decide) (by decide)
      (by decide) (by decide) rfl (by decide) (by decide) (by decide)
      (by decide)).1 (by decide)).1 (by decide)
  · exact ((C6_cooldown testConsts allowAll c6Chain
      (mkBlock 2 100 2 [3] [0] [1] (some c6Tx)) c6Prior c6Prior c6Tx 100 1
      rfl (by decide) (by decide) (by decide) (by decide) (by decide) (by decide)
      (by decide) (by decide) rfl (by decide) (by decide) (by decide)
      (by decide)).1 (by decide)).2 (by decide)

/-! ## Re-classification of an appended block (C7) -/

theorem u64wrap_eq {n : Nat} (h : n < U64) : u64wrap n = n := Nat.mod_eq_of_lt h

theorem u64sub_self (a : Nat) : u64sub a a = 0 := by
  unfold u64sub U64
  omega

theorem u64sub_eq {a b : Nat} (hab : a ≤ b) (hb : b < U64) : u64sub b a = b - a := by
  unfold u64sub U64 at *
  omega

theorem find?_append_of_find? {α : Type} (p : α → Bool) (l₁ l₂ : List α) (r : α)
    (h : l₁.find? p = some r) : (l₁ ++ l₂).find? p = some r := by
  induction l₁ with
  | nil => simp [List.find?] at h
  | cons x xs ih =>
    by_cases hx : p x = true
    · rw [List.find?_cons_of_pos _ hx] at h
      rw [List.cons_append, List.find?_cons_of_pos _ hx]
      exact h
    · rw [List.find?_cons_of_neg _ (by simp [hx])] at h
      rw [List.cons_append, List.find?_cons_of_neg _ (by simp [hx])]
      exact ih h

/-- One loop iteration whose probe finds no block leaves the state unchanged,
so the loop never finishes. -/
theorem signersAux_stuck (P : Consts) (c : Chain) (fb : Block) (tail start count : Nat)
    (acc : List Bytes)
    (hmiss : c.get_block (probeIndex P tail start count) = none)
    (hlen : acc.length < P.LOCKER_BLOCK_LOCKERS) :
    ∀ fuel, signersAux P c fb tail start count acc fuel = none := by
  intro fuel
  induction fuel with
  | zero => rfl
  | succ n ih =>
    unfold signersAux
    rw [if_neg (Nat.not_le.mpr hlen), hmiss]
    exact ih

/-- A finished selection run only ever saw present blocks, so it runs the
same on any chain that agrees on present blocks. -/
theorem signersAux_transfer (P : Consts) (c c₂ : Chain) (fb : Block) (tail start : Nat)
    (hagree : ∀ i r, c.get_block i = some r → c₂.get_block i = some r) :
    ∀ fuel count acc res, signersAux P c fb tail start count acc fuel = some res →
      signersAux P c₂ fb tail start count acc fuel = some res := by
  intro fuel
  induction fuel with
  | zero => intro count acc res h; exact absurd h (by simp [signersAux])
  | succ n ih =>
    intro count acc res h
    unfold signersAux at h ⊢
    by_cases hlen : P.LOCKER_BLOCK_LOCKERS ≤ acc.length
    · rw [if_pos hlen] at h ⊢
      exact h
    · rw [if_neg hlen] at h ⊢
      cases hb : c.get_block (probeIndex P tail start count) with
      | none =>
        rw [hb] at h
        exact absurd (signersAux_stuck P c fb tail start count acc hb
          (Nat.not_le.mp hlen) n ▸ h) (by
            rw [signersAux_stuck P c fb tail start count acc hb (Nat.not_le.mp hlen) n] at h
            exact absurd h (by simp))
      | some bb =>
        simp only [hb] at h
        simp only [hagree _ _ hb]
        by_cases hk : bb.pub_key ≠ fb.pub_key ∧ bb.pub_key ∉ acc
        · rw [if_pos hk] at h
          rw [if_pos hk]
          exact ih _ _ _ h
        · rw [if_neg hk] at h
          rw [if_neg hk]
          exact ih _ _ _ h

theorem signersF_transfer (P : Consts) (c c₂ : Chain) (fb : Block) (fuel : Nat)
    (res : List Bytes)
    (hagree : ∀ i r, c.get_block i = some r → c₂.get_block i = some r)
    (h : Chain.get_block_signersF P c fb fuel = some res) :
    Chain.get_block_signersF P c₂ fb fuel = some res := by
  unfold Chain.get_block_signersF at h ⊢
  by_cases hst : fb.index < P.LOCKER_BLOCK_START
  · rw [if_pos hst] at h ⊢
    exact h
  · rw [if_neg hst] at h ⊢
    exact signersAux_transfer P c c₂ fb _ _ hagree fuel 1 [] res h

theorem dupScan_transfer (c c₂ : Chain) (pk : Bytes)
    (hagree : ∀ i r, c.get_block i = some r → c₂.get_block i = some r) :
    ∀ (idxs : List Nat) (r : Bool), dupScan c pk idxs = .ok r →
      dupScan c₂ pk idxs = .ok r := by
  intro idxs
  induction idxs with
  | nil => intro r h; exact h
  | cons i rest ih =>
    intro r h
    unfold dupScan at h ⊢
    cases hb : c.get_block i with
    | none => rw [hb] at h; exact absurd h (by simp)
    | some s =>
      simp only [hb] at h
      simp only [hagree _ _ hb]
      by_cases hs : (s.pub_key == pk) = true
      · rw [if_pos hs] at h
        rw [if_pos hs]
        exact h
      · rw [if_neg hs] at h
        rw [if_neg hs]
        exact ih r h

theorem checkSig_transfer (P : Consts) (c c₂ : Chain) (b fb : Block) (fuel : Nat)
    (hagree : ∀ i r, c.get_block i = some r → c₂.get_block i = some r)
    (h : Chain.check_block_for_signingF P c b fb fuel = .ok .Good) :
    Chain.check_block_for_signingF P c₂ b fb fuel = .ok .Good := by
  unfold Chain.check_block_for_signingF at h ⊢
  cases hsig : Chain.get_block_signersF P c fb fuel with
  | none => rw [hsig] at h; simp at h
  | some s =>
    rw [hsig] at h
    rw [signersF_transfer P c c₂ fb fuel s hagree hsig]
    by_cases hmem : b.pub_key ∈ s
    · cases hd : dupScan c b.pub_key (List.range' (fb.index + 1) (b.index - (fb.index + 1))) with
      | panicked => simp [hmem, hd] at h
      | timeout => simp [hmem, hd] at h
      | ok r =>
        cases r
        · simp only [hmem] at h ⊢
          rw [dupScan_transfer c c₂ b.pub_key hagree _ false hd]
          simp [hmem]
        · simp [hmem, hd] at h
    · simp [hmem] at h

/-- Variant of `good_of_ite` that also records that the guard was false. -/
theorem good_of_ite' {A : Prop} [Decidable A] {X : Res BlockQuality} {r : BlockQuality}
    (hr : r ≠ .Good) (h : (if A then Res.ok r else X) = .ok .Good) :
    ¬ A ∧ X = .ok .Good := by
  by_cases ha : A
  · rw [if_pos ha] at h
    exact absurd (Res.ok.inj h) hr
  · rw [if_neg ha] at h
    exact ⟨ha, h⟩

/-- What a Good verdict on a non-empty chain implies: the candidate is not
ahead of `last+1`, sits on no stored index, and — when the locker check was
consulted — passed it. -/
theorem pre_good_facts (P : Consts) (K : Crypto) (c : Chain) (b lb : Block)
    (now : Int) (fuel : Nat)
    (hlast : c.last_block = some lb)
    (hpre : Chain.check_new_blockF P K c b now fuel = .ok .Good) :
    ¬ u64wrap (lb.index + 1) < b.index ∧
      (b.index ≤ lb.index → c.get_block b.index = none) ∧
      (∀ f, c.last_full_block = some f → P.LOCKER_BLOCK_START ≤ b.index →
        b.transaction = none →
        (u64sub c.height f.index < P.LOCKER_BLOCK_SIGNS ∨
          (¬ u64sub c.height f.index < P.LOCKER_BLOCK_SIGNS ∧
            u64sub c.height f.index < P.LOCKER_BLOCK_LOCKERS)) →
        Chain.check_block_for_signingF P c b f fuel = .ok .Good) := by
  have hBad : (BlockQuality.Bad : BlockQuality) ≠ .Good := by decide
  have hFut : (BlockQuality.Future : BlockQuality) ≠ .Good := by decide
  have hTwin : (BlockQuality.Twin : BlockQuality) ≠ .Good := by decide
  unfold Chain.check_new_blockF at hpre
  simp only [hlast] at hpre
  replace hpre := good_of_ite hBad hpre
  replace hpre := good_of_ite hBad hpre
  replace hpre := good_of_ite hBad hpre
  replace hpre := good_of_ite hBad hpre
  replace hpre := good_of_ite hBad hpre
  replace hpre := good_of_ite hBad hpre
  replace hpre := good_of_ite hBad hpre
  replace hpre := good_of_ite hBad hpre
  replace hpre := good_of_ite hBad hpre
  obtain ⟨hfut, hpre⟩ := good_of_ite' hFut hpre
  refine ⟨hfut, ?_, ?_⟩
  · intro hle
    split at hpre
    · simp at hpre
    · simp at hpre
    · simp at hpre
    · rw [if_pos hle] at hpre
      obtain ⟨_, hpre⟩ := good_of_ite' hTwin hpre
      cases hgb : c.get_block b.index with
      | none => rfl
      | some my =>
        simp only [hgb] at hpre
        exfalso
        by_cases hh : my.hash ≠ b.hash
        · rw [if_pos hh] at hpre
          simp at hpre
        · rw [if_neg hh] at hpre
          simp at hpre
  · intro f hf hstart htxn hrange
    split at hpre
    · simp at hpre
    · simp at hpre
    · simp at hpre
    · rename_i heq
      rw [if_pos hstart] at heq
      simp only [hf] at heq
      have hred : (match Chain.check_block_for_signingF P c b f fuel with
          | .ok q => Res.ok (q == BlockQuality.Bad)
          | .panicked => (Res.panicked : Res Bool)
          | .timeout => .timeout) = .ok false := by
        rcases hrange with hr | ⟨hr1, hr2⟩
        · rw [if_pos hr] at heq
          simpa [htxn] using heq
        · rw [if_neg hr1] at heq
          simpa [htxn, hr2] using heq
      cases hchk : Chain.check_block_for_signingF P c b f fuel with
      | panicked => rw [hchk] at hred; simp at hred
      | timeout => rw [hchk] at hred; simp at hred
      | ok q =>
        rw [hchk] at hred
        rcases check_signing_ok_cases P c b f fuel q hchk with hq | hq
        · rw [hq]
        · rw [hq] at hred
          simp at hred

/-- A Good verdict on the empty chain is only possible for the genesis
block. -/
theorem pre_good_genesis (P : Consts) (K : Crypto) (c : Chain) (b : Block)
    (now : Int) (fuel : Nat)
    (hlast : c.last_block = none)
    (hpre : Chain.check_new_blockF P K c b now fuel = .ok .Good) :
    b.index = 1 := by
  have hBad : (BlockQuality.Bad : BlockQuality) ≠ .Good := by decide
  have hFut : (BlockQuality.Future : BlockQuality) ≠ .Good := by decide
  unfold Chain.check_new_blockF at hpre
  simp only [hlast] at hpre
  replace hpre := good_of_ite hBad hpre
  replace hpre := good_of_ite hBad hpre
  replace hpre := good_of_ite hBad hpre
  replace hpre := good_of_ite hBad hpre
  replace hpre := good_of_ite hBad hpre
  replace hpre := good_of_ite hBad hpre
  replace hpre := good_of_ite hBad hpre
  replace hpre := good_of_ite hBad hpre
  obtain ⟨hg, _⟩ := good_of_ite' hFut hpre
  have : b.is_genesis = true := by
    cases hgen : b.is_genesis
    · exact absurd (by simp [hgen]) hg
    · rfl
  unfold Block.is_genesis at this
  have := (Bool.and_eq_true _ _).mp this
  exact eq_of_beq this.1

/-- The state `add_block` returns on its non-panicking paths: the caches
point at the new block and every previously stored block is still found at
its index. -/
theorem add_block_ret_facts (c c' : Chain) (b : Block)
    (hret : Chain.add_block ⟨true, true, true⟩ c b = .ret c') :
    c'.last_block = some b ∧
      c'.last_full_block
        = (if b.transaction.isSome then some b else c.last_full_block) ∧
      (∀ i r, c.get_block i = some r → c'.get_block i = some r) := by
  unfold Chain.add_block at hret
  by_cases hins : blockInsertOk ⟨true, true, true⟩ c b = true
  · rw [if_pos hins] at hret
    cases htx : b.transaction with
    | none =>
      simp only [htx] at hret
      obtain rfl := (AddBlockResult.ret.inj hret).symm
      refine ⟨rfl, by simp [htx], ?_⟩
      intro i r h
      exact find?_append_of_find? _ _ _ _ h
    | some t =>
      simp only [htx] at hret
      by_cases hdom : (t.tclass == "domain") = true
      · rw [if_pos hdom] at hret
        by_cases hok : (true && !(c.domains.any (fun r => r.id == b.index))) = true
        · rw [if_pos hok] at hret
          obtain rfl := (AddBlockResult.ret.inj hret).symm
          refine ⟨rfl, by simp [htx], ?_⟩
          intro i r h
          exact find?_append_of_find? _ _ _ _ h
        · rw [if_neg hok] at hret
          exact absurd hret (by simp)
      · rw [if_neg hdom] at hret
        by_cases hzon : (t.tclass == "zone") = true
        · rw [if_pos hzon] at hret
          by_cases hok : (true && !(c.zones.any (fun r => r.id == b.index))) = true
          · rw [if_pos hok] at hret
            obtain rfl := (AddBlockResult.ret.inj hret).symm
            refine ⟨rfl, by simp [htx], ?_⟩
            intro i r h
            exact find?_append_of_find? _ _ _ _ h
          · rw [if_neg hok] at hret
            exact absurd hret (by simp)
        · rw [if_neg hzon] at hret
          exact absurd hret (by simp)
  · rw [if_neg hins] at hret
    obtain rfl := (AddBlockResult.ret.inj hret).symm
    exact ⟨rfl, rfl, fun i r h => h⟩

/-- The state well-formedness C7 relies on: a contiguous stored chain, a
cached last full block no higher than the last block, and index arithmetic
away from the `u64` wrap. -/
def WF (c : Chain) : Prop :=
  match c.last_block with
  | none => c.last_full_block = none
  | some lb =>
      (∀ i, 1 ≤ i → i ≤ lb.index → (c.get_block i).isSome = true) ∧
      (∀ f, c.last_full_block = some f → f.index ≤ lb.index) ∧
      lb.index + 2 < U64

/-- Elimination of one Bad early exit when showing a Twin-or-Bad verdict. -/
theorem twin_or_bad_ite {A : Prop} [Decidable A] {X : Res BlockQuality}
    (hx : X = .ok .Twin ∨ X = .ok .Bad) :
    ((if A then Res.ok BlockQuality.Bad else X) = .ok .Twin ∨
      (if A then Res.ok BlockQuality.Bad else X) = .ok .Bad) := by
  by_cases h : A
  · rw [if_pos h]
    exact Or.inr rfl
  · rw [if_neg h]
    exact hx

theorem good_beq_bad : (BlockQuality.Good == BlockQuality.Bad) = false := by decide

/-- C7: a block accepted as Good and appended by `add_block` re-classifies
against the extended chain as Twin or Bad — never Good, Fork or Future. -/
theorem C7_append_then_twin_or_bad (P : Consts) (K : Crypto) (c c' : Chain) (b : Block)
    (now : Int) (fuel : Nat)
    (hP : 0 < P.LOCKER_BLOCK_START)
    (hwf : WF c)
    (hpre : Chain.check_new_blockF P K c b now fuel = .ok .Good)
    (hret : Chain.add_block ⟨true, true, true⟩ c b = .ret c') :
    Chain.check_new_blockF P K c' b now fuel = .ok .Twin ∨
      Chain.check_new_blockF P K c' b now fuel = .ok .Bad := by
  obtain ⟨hlast', hlfb', hagree⟩ := add_block_ret_facts c c' b hret
  have hh' : c'.height = b.index := by simp [Chain.height, hlast']
  cases hlb : c.last_block with
  | none =>
    have hwfe : c.last_full_block = none := by
      simp only [WF, hlb] at hwf
      exact hwf
    have hb1 : b.index = 1 := pre_good_genesis P K c b now fuel hlb hpre
    have h2U : (2 : Nat) < U64 := by decide
    have hfut' : ¬ u64wrap (b.index + 1) < b.index := by
      rw [hb1, u64wrap_eq h2U]
      omega
    unfold Chain.check_new_blockF
    simp only [hlast']
    apply twin_or_bad_ite
    apply twin_or_bad_ite
    apply twin_or_bad_ite
    apply twin_or_bad_ite
    apply twin_or_bad_ite
    apply twin_or_bad_ite
    apply twin_or_bad_ite
    apply twin_or_bad_ite
    apply twin_or_bad_ite
    rw [if_neg hfut']
    by_cases hstart' : P.LOCKER_BLOCK_START ≤ b.index
    · rw [if_pos hstart']
      cases htx : b.transaction with
      | some t =>
        have hlf2 : c'.last_full_block = some b := by
          rw [hlfb', htx]
          rfl
        simp only [hlf2, hh', u64sub_self]
        by_cases hs0 : 0 < P.LOCKER_BLOCK_SIGNS
        · rw [if_pos hs0]
          simp [htx]
        · rw [if_neg hs0]
          simp [htx]
      | none =>
        have hlf2 : c'.last_full_block = none := by
          rw [hlfb', htx]
          simpa using hwfe
        simp only [hlf2]
        simp
    · rw [if_neg hstart']
      simp
  | some lb =>
    simp only [WF, hlb] at hwf
    obtain ⟨hcont, hfle, hbound⟩ := hwf
    obtain ⟨F1, F2, F3⟩ := pre_good_facts P K c b lb now fuel hlb hpre
    have hble : b.index ≤ lb.index + 1 := by
      rw [u64wrap_eq (by omega)] at F1
      omega
    have hfut' : ¬ u64wrap (b.index + 1) < b.index := by
      rw [u64wrap_eq (by omega)]
      omega
    unfold Chain.check_new_blockF
    simp only [hlast']
    apply twin_or_bad_ite
    apply twin_or_bad_ite
    apply twin_or_bad_ite
    apply twin_or_bad_ite
    apply twin_or_bad_ite
    apply twin_or_bad_ite
    apply twin_or_bad_ite
    apply twin_or_bad_ite
    apply twin_or_bad_ite
    rw [if_neg hfut']
    by_cases hstart' : P.LOCKER_BLOCK_START ≤ b.index
    · rw [if_pos hstart']
      cases htx : b.transaction with
      | some t =>
        have hlf2 : c'.last_full_block = some b := by
          rw [hlfb', htx]
          rfl
        simp only [hlf2, hh', u64sub_self]
        by_cases hs0 : 0 < P.LOCKER_BLOCK_SIGNS
        · rw [if_pos hs0]
          simp [htx]
        · rw [if_neg hs0]
          simp [htx]
      | none =>
        have hlf2 : c'.last_full_block = c.last_full_block := by
          rw [hlfb', htx]
          rfl
        cases hlf : c.last_full_block with
        | none =>
          simp only [hlf2, hlf]
          simp
        | some f =>
          simp only [hlf2, hlf, hh']
          have hble1 : 1 ≤ b.index := le_trans hP hstart'
          have hbeq : b.index = lb.index + 1 := by
            by_cases hle : b.index ≤ lb.index
            · have hnone := F2 hle
              have hsome := hcont b.index hble1 hle
              rw [hnone] at hsome
              simp at hsome
            · omega
          have hfle' : f.index ≤ lb.index := hfle f hlf
          have hgap' : u64sub b.index f.index = lb.index + 1 - f.index := by
            rw [hbeq]
            exact u64sub_eq (by omega) (by omega)
          have hgapPre : u64sub c.height f.index = lb.index - f.index := by
            have hch : c.height = lb.index := by simp [Chain.height, hlb]
            rw [hch]
            exact u64sub_eq hfle' (by omega)
          rw [hgap']
          by_cases h1 : lb.index + 1 - f.index < P.LOCKER_BLOCK_SIGNS
          · rw [if_pos h1]
            have hsigC : Chain.check_block_for_signingF P c b f fuel = .ok .Good :=
              F3 f hlf hstart' htx (Or.inl (by rw [hgapPre]; omega))
            have hsigC' := checkSig_transfer P c c' b f fuel hagree hsigC
            simp [htx, hsigC', good_beq_bad]
          · rw [if_neg h1]
            by_cases h2 : lb.index + 1 - f.index < P.LOCKER_BLOCK_LOCKERS
            · have hcond : (decide (lb.index + 1 - f.index < P.LOCKER_BLOCK_LOCKERS)
                  && (none : Option Transaction).isNone) = true := by
                simp [h2]
              rw [if_pos hcond]
              have hrangePre : u64sub c.height f.index < P.LOCKER_BLOCK_SIGNS ∨
                  (¬ u64sub c.height f.index < P.LOCKER_BLOCK_SIGNS ∧
                    u64sub c.height f.index < P.LOCKER_BLOCK_LOCKERS) := by
                rw [hgapPre]
                by_cases hps : lb.index - f.index < P.LOCKER_BLOCK_SIGNS
                · exact Or.inl hps
                · exact Or.inr ⟨hps, by omega⟩
              have hsigC := F3 f hlf hstart' htx hrangePre
              have hsigC' := checkSig_transfer P c c' b f fuel hagree hsigC
              simp [hsigC', good_beq_bad]
            · have hcond : ¬ ((decide (lb.index + 1 - f.index < P.LOCKER_BLOCK_LOCKERS)
                  && (none : Option Transaction).isNone) = true) := by
                simp [h2]
              rw [if_neg hcond]
              simp
    · rw [if_neg hstart']
      simp

/-- The fixture chain after appending the locker candidate `sCand`. -/
def sChainAfter : Chain :=
  { sChain with last_block := some sCand, blocks := sChain.blocks ++ [sCand] }

/-- Witness for C7: the committee-signed locker block `sCand` is Good on the
fixture chain, and after `add_block` re-classifies as Twin or Bad. -/
theorem C7_witness :
    WF sChain ∧
      Chain.check_new_blockF testConsts allowAll sChain sCand 0 12 = .ok .Good ∧
      Chain.add_block ⟨true, true, true⟩ sChain sCand = .ret sChainAfter ∧
      (Chain.check_new_blockF testConsts allowAll sChainAfter sCand 0 12 = .ok .Twin ∨
        Chain.check_new_blockF testConsts allowAll sChainAfter sCand 0 12 = .ok .Bad) := by
  have hwf : WF sChain := by
    show (∀ i, 1 ≤ i → i ≤ sTop.index → (sChain.get_block i).isSome = true) ∧
      (∀ f, sChain.last_full_block = some f → f.index ≤ sTop.index) ∧
      sTop.index + 2 < U64
    refine ⟨?_, ?_, by decide⟩
    · intro i h1 h2
      have h2' : i ≤ 7 := h2
      clear h2
      interval_cases i <;> decide
    · intro f hf
      have : f = sFull := by
        have := Option.some.inj hf
        exact this.symm
      rw [this]
      decide
  refine ⟨hwf, by decide, by decide, ?_⟩
  exact C7_append_then_twin_or_bad testConsts allowAll sChain sChainAfter sCand 0 12
    (by decide) hwf (by decide) (by decide)

end Alfis
